import Mathlib

/-!
Verification development for the consensus validation core of libbitcoin
(src/validate.cpp).  The data model and the operations are shallowly
embedded: pure C++ functions become Lean functions, the asynchronous
transaction validator becomes an explicit state machine stepped by oracle
replies, and machine integers are Nat with explicit reduction modulo 2^64
or 2^32 exactly where the C++ type can wrap.  External subsystems that are
interfaced only (script execution, script serialisation, transaction
hashing, blockchain storage) enter as function-valued parameters, and
constants or helpers whose defining code is not part of the sources here
(constants header, big-number library, transaction utilities) are modelled
from the specification, each marked in its doc comment.
-/

set_option linter.unusedVariables false

namespace LibBitcoin

/-- A 32-byte hash digest, modelled as its list of byte values. -/
abbrev hash_digest := List Nat

/-- Modelled from the spec: the zero hash that appears in null outpoints
(transaction utilities are not part of the sources here). -/
def null_hash : hash_digest := List.replicate 32 0

/-- An outpoint referencing one output of a previous transaction. -/
structure output_point where
  hash : hash_digest
  index : Nat
  deriving DecidableEq

/-- One parsed script operation: an opcode byte together with its push data. -/
structure operation where
  code : Nat
  data : List Nat
  deriving DecidableEq

/-- A script, exposed to the validators as its operation sequence; execution,
classification, parsing and serialisation are external black boxes supplied
through script_ctx. -/
structure script where
  operations : List operation
  deriving DecidableEq

/-- A transaction input. -/
structure transaction_input where
  previous_output : output_point
  input_script : script
  sequence : Nat
  deriving DecidableEq

/-- A transaction output. -/
structure transaction_output where
  value : Nat
  output_script : script
  deriving DecidableEq

/-- A transaction. -/
structure transaction where
  version : Nat
  inputs : List transaction_input
  outputs : List transaction_output
  lock_time : Nat
  deriving DecidableEq

/-- A block: header fields plus the transaction list. -/
structure block where
  version : Nat
  previous_block_hash : hash_digest
  merkle : hash_digest
  timestamp : Nat
  bits : Nat
  nonce : Nat
  transactions : List transaction
  deriving DecidableEq

/-- The closed error enumeration of error.hpp, extended with the
constructor ok standing for the default-constructed std::error_code
(success). -/
inductive error_code where
  | ok
  | service_stopped
  | not_found
  | duplicate
  | unspent_output
  | unsupported_payment_type
  | start_failed
  | resolve_failed
  | network_unreachable
  | address_in_use
  | listen_failed
  | accept_failed
  | bad_stream
  | channel_timeout
  | coinbase_transaction
  | is_not_standard
  | double_spend
  | input_not_found
  | empty_transaction
  | output_value_overflow
  | invalid_coinbase_script_size
  | previous_output_null
  | previous_block_invalid
  | size_limits
  | proof_of_work
  | futuristic_timestamp
  | first_not_coinbase
  | extra_coinbases
  | too_many_sigs
  | merkle_mismatch
  | incorrect_proof_of_work
  | timestamp_too_early
  | non_final_transaction
  | checkpoints_failed
  | duplicate_or_spent
  | validate_inputs_failed
  | fees_out_of_range
  | coinbase_too_large
  deriving DecidableEq

/-- The modulus of the 64-bit unsigned machine integers (uint64_t, size_t). -/
def u64_mod : Nat := 18446744073709551616

/-- The modulus of the 32-bit unsigned machine integers. -/
def u32_mod : Nat := 4294967296

/-- The all-ones 32-bit value used as the null outpoint index. -/
def max_index : Nat := 4294967295

/-- Modelled from the spec: MAX_MONEY = 21_000_000 * 10^8 satoshis (the
constants header is not part of the sources here). -/
def max_money : Nat := 21000000 * 100000000

/-- Modelled from the spec: COINBASE_MATURITY = 100 blocks. -/
def coinbase_maturity : Nat := 100

/-- Block size limit, from the source. -/
def max_block_size : Nat := 1000000

/-- Block signature-operation limit, from the source. -/
def max_block_script_sig_operations : Nat := max_block_size / 50

/-- Modelled from the spec: TARGET_TIMESPAN = 14 * 24 * 3600 seconds. -/
def target_timespan : Nat := 14 * 24 * 3600

/-- Modelled from the spec: READJUSTMENT_INTERVAL = 2016 blocks. -/
def readjustment_interval : Nat := 2016

/-- Modelled from the spec: a null outpoint is the all-ones index plus the
zero hash. -/
def previous_output_is_null (p : output_point) : Bool :=
  p.index == max_index && p.hash == null_hash

/-- Modelled from the spec: a coinbase transaction has exactly one input and
that input references the null outpoint. -/
def is_coinbase (tx : transaction) : Bool :=
  match tx.inputs with
  | [i0] => previous_output_is_null i0.previous_output
  | _ => false

/-- Modelled from the spec: the sum of a transaction's output values. -/
def total_output_value (tx : transaction) : Nat :=
  (tx.outputs.map transaction_output.value).sum

/-- Modelled from the spec: the block subsidy, 50 * 10^8 satoshis halved
every 210000 blocks, zero once the shift exhausts. -/
def block_value (depth : Nat) : Nat :=
  (50 * 100000000) >>> (depth / 210000)

/-- Modelled from the spec: BIP16 activation timestamp (constants header not
part of the sources here). -/
def bip16_switchover_timestamp : Nat := 1333238400

/-- Modelled from the spec: the opcode encoding maps op_1 .. op_16 to the
raw values 1 .. 16. -/
def op_1_code : Nat := 1

/-- Modelled from the spec: the raw value of op_16. -/
def op_16_code : Nat := 16

/-- Modelled from the spec: raw byte value of the checksig opcode, distinct
from the op_1 .. op_16 range. -/
def checksig_code : Nat := 172

/-- Modelled from the spec: raw byte value of the checksigverify opcode. -/
def checksigverify_code : Nat := 173

/-- Modelled from the spec: raw byte value of the checkmultisig opcode. -/
def checkmultisig_code : Nat := 174

/-- Modelled from the spec: raw byte value of the checkmultisigverify
opcode. -/
def checkmultisigverify_code : Nat := 175

/-- The loop of count_script_sigops: total_sigs and last_number thread
through the operation sequence exactly as in the source. -/
def count_script_sigops_loop (accurate : Bool) :
    List operation → Nat → Nat → Nat
  | [], total_sigs, _ => total_sigs
  | op :: rest, total_sigs, last_number =>
    count_script_sigops_loop accurate rest
      (if op.code = checksig_code ∨ op.code = checksigverify_code then
        total_sigs + 1
      else if op.code = checkmultisig_code ∨ op.code = checkmultisigverify_code then
        if accurate ∧ last_number ≠ 0 then total_sigs + last_number
        else total_sigs + 20
      else total_sigs)
      (if op_1_code ≤ op.code ∧ op.code ≤ op_16_code then op.code else last_number)

/-- count_script_sigops translated from the source. -/
def count_script_sigops (operations : List operation) (accurate : Bool) : Nat :=
  count_script_sigops_loop accurate operations 0 0

/-- The most recently seen raw opcode value in the range op_1 .. op_16 over a
prefix of the operation sequence, 0 when none was seen; written from the
words of the claim for comparison with the source loop. -/
def last_op_n (seen : List operation) : Nat :=
  seen.foldl
    (fun acc op =>
      if op_1_code ≤ op.code ∧ op.code ≤ op_16_code then op.code else acc) 0

/-- The number of signature operations one operation is claimed to add,
given the most recently seen op_1 .. op_16 value; written from the words of
the claim. -/
def sigop_contribution (accurate : Bool) (code last_n : Nat) : Nat :=
  if code = checksig_code ∨ code = checksigverify_code then 1
  else if code = checkmultisig_code ∨ code = checkmultisigverify_code then
    if accurate ∧ 1 ≤ last_n ∧ last_n ≤ 16 then last_n else 20
  else 0

/-- Claim-side recursive restatement of the sigop count: each operation
contributes sigop_contribution evaluated at the most recently seen
op_1 .. op_16 value of the preceding operations. -/
def count_script_sigops_claim (accurate : Bool) :
    List operation → List operation → Nat
  | _, [] => 0
  | seen, op :: rest =>
    sigop_contribution accurate op.code (last_op_n seen) +
      count_script_sigops_claim accurate (seen ++ [op]) rest

/-- The external script-subsystem and hashing black boxes used by the
validators: script execution, script-hash classification, parsing of push
data, serialised script size and transaction hashing are interfaced only. -/
structure script_ctx where
  run : script → script → transaction → Nat → Bool → Bool
  is_script_hash : script → Bool
  parse_script : List Nat → script
  save_script_size : script → Nat
  hash_transaction : transaction → hash_digest

/-- The output-value loop of check_transaction: each value is checked
against MAX_MONEY and then accumulated into the 64-bit running total, which
is in turn checked against MAX_MONEY after every addition; none signals the
output_value_overflow error. -/
def check_outputs_loop : List transaction_output → Nat → Option Nat
  | [], total => some total
  | o :: rest, total =>
    if o.value > max_money then none
    else
      let total' := (total + o.value) % u64_mod
      if total' > max_money then none
      else check_outputs_loop rest total'

/-- validate_transaction::check_transaction translated from the source. -/
def check_transaction (sc : script_ctx) (tx : transaction) : error_code :=
  match tx.inputs, tx.outputs with
  | [], _ => error_code.empty_transaction
  | _ :: _, [] => error_code.empty_transaction
  | i0 :: _, _ :: _ =>
    match check_outputs_loop tx.outputs 0 with
    | none => error_code.output_value_overflow
    | some _ =>
      if is_coinbase tx then
        if sc.save_script_size i0.input_script < 2 ∨
            sc.save_script_size i0.input_script > 100 then
          error_code.invalid_coinbase_script_size
        else error_code.ok
      else if tx.inputs.any
          (fun inp => previous_output_is_null inp.previous_output) then
        error_code.previous_output_null
      else error_code.ok

theorem last_op_n_append (seen : List operation) (op : operation) :
    last_op_n (seen ++ [op]) =
      if op_1_code ≤ op.code ∧ op.code ≤ op_16_code then op.code
      else last_op_n seen := by
  simp [last_op_n, List.foldl_append]

theorem last_op_n_range (seen : List operation) :
    last_op_n seen = 0 ∨ (1 ≤ last_op_n seen ∧ last_op_n seen ≤ 16) := by
  induction seen using List.reverseRecOn with
  | nil => left; rfl
  | append_singleton l op ih =>
    rw [last_op_n_append]
    split
    · next h =>
      right
      simp only [op_1_code, op_16_code] at h
      exact h
    · exact ih

theorem sigop_step_eq (accurate : Bool) (op : operation) (seen : List operation)
    (total : Nat) :
    (if op.code = checksig_code ∨ op.code = checksigverify_code then total + 1
     else if op.code = checkmultisig_code ∨ op.code = checkmultisigverify_code then
       if accurate ∧ last_op_n seen ≠ 0 then total + last_op_n seen
       else total + 20
     else total) =
      total + sigop_contribution accurate op.code (last_op_n seen) := by
  have h16 := last_op_n_range seen
  simp only [sigop_contribution]
  by_cases h1 : op.code = checksig_code ∨ op.code = checksigverify_code
  · simp [h1]
  · by_cases h2 : op.code = checkmultisig_code ∨ op.code = checkmultisigverify_code
    · simp only [h1, h2, if_true, if_false]
      by_cases hacc : accurate = true
      · rcases h16 with h0 | hr
        · simp [hacc, h0]
        · have hne : last_op_n seen ≠ 0 := by omega
          simp [hacc, hne, hr.1, hr.2]
      · simp [hacc]
    · simp [h1, h2]

theorem count_script_sigops_loop_eq (accurate : Bool) :
    ∀ (ops seen : List operation) (total : Nat),
      count_script_sigops_loop accurate ops total (last_op_n seen) =
        total + count_script_sigops_claim accurate seen ops := by
  intro ops
  induction ops with
  | nil =>
    intro seen total
    simp [count_script_sigops_loop, count_script_sigops_claim]
  | cons op rest ih =>
    intro seen total
    simp only [count_script_sigops_loop, count_script_sigops_claim]
    rw [← last_op_n_append seen op, ih (seen ++ [op]), sigop_step_eq,
      Nat.add_assoc]

/-- Claim C1: count_script_sigops adds one for each checksig or
checksigverify opcode and, for each checkmultisig or checkmultisigverify
opcode, adds the value N in 1..16 of the most recently seen opcode in the
range op_1..op_16 (encoded so op_1..op_16 map to 1..16) when accurate is
set and such an opcode was seen, and 20 otherwise. -/
theorem claim_C1_count_script_sigops (operations : List operation)
    (accurate : Bool) :
    count_script_sigops operations accurate =
      count_script_sigops_claim accurate [] operations := by
  have h := count_script_sigops_loop_eq accurate operations [] 0
  simpa [count_script_sigops, last_op_n] using h

theorem check_outputs_loop_ok :
    ∀ (outs : List transaction_output) (total t : Nat),
      check_outputs_loop outs total = some t → total ≤ max_money →
      (∀ o ∈ outs, o.value ≤ max_money) ∧
        total + (outs.map transaction_output.value).sum ≤ max_money := by
  intro outs
  induction outs with
  | nil =>
    intro total t h htot
    simpa using htot
  | cons o rest ih =>
    intro total t h htot
    simp only [check_outputs_loop] at h
    split at h
    · exact absurd h (by simp)
    · next hval =>
      split at h
      · exact absurd h (by simp)
      · next htot' =>
        have hlt : total + o.value < u64_mod := by
          simp only [max_money] at htot hval
          simp only [u64_mod]
          omega
        rw [Nat.mod_eq_of_lt hlt] at h htot'
        have hrest := ih (total + o.value) t h (by omega)
        refine ⟨?_, ?_⟩
        · intro x hx
          rcases List.mem_cons.mp hx with hx | hx
          · subst hx; omega
          · exact hrest.1 x hx
        · simpa [Nat.add_assoc] using hrest.2

/-- Claim C5: if check_transaction returns OK the transaction has at least
one input and at least one output, every output value is at most MAX_MONEY,
and the sum of all output values is at most MAX_MONEY. -/
theorem claim_C5_check_transaction (sc : script_ctx) (tx : transaction)
    (h : check_transaction sc tx = error_code.ok) :
    tx.inputs ≠ [] ∧ tx.outputs ≠ [] ∧
      (∀ o ∈ tx.outputs, o.value ≤ max_money) ∧
      total_output_value tx ≤ max_money := by
  unfold check_transaction at h
  rcases hin : tx.inputs with _ | ⟨i0, irest⟩
  · rw [hin] at h; exact absurd h (by simp)
  rcases hout : tx.outputs with _ | ⟨o0, orest⟩
  · rw [hin, hout] at h; exact absurd h (by simp)
  rw [hin, hout] at h
  rcases hloop : check_outputs_loop (o0 :: orest) 0 with _ | t
  · rw [hloop] at h; exact absurd h (by simp)
  have hok := check_outputs_loop_ok (o0 :: orest) 0 t hloop (by simp [max_money])
  refine ⟨by simp [hin], by simp [hout], ?_, ?_⟩
  · simpa [hout] using hok.1
  · simpa [total_output_value, hout] using hok.2

/-- A concrete script context whose black boxes are trivial: the script
interpreter accepts, nothing is classified as pay-to-script-hash, parsing
yields the empty script, every script serialises to 2 bytes and every
transaction hashes to the zero hash. -/
def sc_trivial : script_ctx where
  run := fun _ _ _ _ _ => true
  is_script_hash := fun _ => false
  parse_script := fun _ => ⟨[]⟩
  save_script_size := fun _ => 2
  hash_transaction := fun _ => null_hash

/-- A hash value distinct from the null hash, for concrete inputs. -/
def hash_one : hash_digest := 1 :: List.replicate 31 0

/-- A concrete non-coinbase transaction: one input spending output 0 of
hash_one, one output of value 5. -/
def tx_simple : transaction where
  version := 1
  inputs := [⟨⟨hash_one, 0⟩, ⟨[]⟩, 0⟩]
  outputs := [⟨5, ⟨[]⟩⟩]
  lock_time := 0

/-- Witness for claim C5: the concrete transaction tx_simple passes
check_transaction and satisfies the claimed bounds. -/
theorem claim_C5_witness :
    check_transaction sc_trivial tx_simple = error_code.ok ∧
      (tx_simple.inputs ≠ [] ∧ tx_simple.outputs ≠ [] ∧
        (∀ o ∈ tx_simple.outputs, o.value ≤ max_money) ∧
        total_output_value tx_simple ≤ max_money) :=
  ⟨by decide, claim_C5_check_transaction sc_trivial tx_simple (by decide)⟩

/-- Modelled from the spec: decoding of the 32-bit compact representation
into a big integer, mirroring big_number::set_compact of the external
big-number library: the top byte is a base-256 exponent, the low 23 bits
are the mantissa and bit 0x00800000 is the sign. -/
def decompact (bits : Nat) : Int :=
  if bits &&& 0x00800000 ≠ 0 then
    -(((if bits >>> 24 ≤ 3 then (bits &&& 0x007fffff) >>> (8 * (3 - bits >>> 24))
        else (bits &&& 0x007fffff) <<< (8 * (bits >>> 24 - 3))) : Nat) : Int)
  else
    (((if bits >>> 24 ≤ 3 then (bits &&& 0x007fffff) >>> (8 * (3 - bits >>> 24))
        else (bits &&& 0x007fffff) <<< (8 * (bits >>> 24 - 3))) : Nat) : Int)

/-- The number of base-256 digits of a natural number, by fuel recursion. -/
def byte_length_fuel : Nat → Nat → Nat
  | 0, _ => 0
  | fuel + 1, n => if n = 0 then 0 else byte_length_fuel fuel (n / 256) + 1

/-- The number of base-256 digits of a natural number. -/
def byte_length (n : Nat) : Nat := byte_length_fuel n n

/-- The size in bytes of the OpenSSL mpi data of a magnitude: its base-256
digits, plus a leading zero byte when the top digit has its high bit set. -/
def mpi_size (m : Nat) : Nat :=
  if m = 0 then 0
  else if 128 ≤ m >>> (8 * (byte_length m - 1)) then byte_length m + 1
  else byte_length m

/-- Modelled from the spec: re-encoding of a big integer into the 32-bit
compact representation, mirroring big_number::compact of the external
big-number library: the mpi byte count becomes the exponent, the first
three mpi data bytes the mantissa, and a negative sign sets bit
0x00800000; the result is truncated to 32 bits. -/
def compact_of (v : Int) : Nat :=
  ((mpi_size v.natAbs <<< 24) +
    (if mpi_size v.natAbs ≤ 3 then v.natAbs <<< (8 * (3 - mpi_size v.natAbs))
     else v.natAbs >>> (8 * (mpi_size v.natAbs - 3))) +
    (if v < 0 ∧ v.natAbs ≠ 0 then 0x00800000 else 0)) % u32_mod

/-- Modelled from the spec: big_number::set_hash interprets the 32-byte
hash as a little-endian unsigned integer. -/
def hash_number (h : hash_digest) : Nat :=
  h.foldr (fun b acc => b + 256 * acc) 0

/-- Modelled from the spec: MAX_TARGET, the easiest permitted target,
0xffff * 2^208, the value decoded from compact 0x1d00ffff. -/
def max_target : Int := 65535 * 2 ^ 208

/-- Modelled from the spec: MAX_BITS, the compact encoding of MAX_TARGET. -/
def max_bits : Nat := 0x1d00ffff

/-- validate_block::check_proof_of_work translated from the source. -/
def check_proof_of_work (block_hash : hash_digest) (bits : Nat) : Bool :=
  if decompact bits ≤ 0 ∨ decompact bits > max_target then false
  else if (hash_number block_hash : Int) > decompact bits then false
  else true

/-- Counterexample to claim C3 as stated: at bits = 0 the decoded target is
zero, so for the all-zero hash the claimed right-hand side holds (0 ≤ 0 ≤
MAX_TARGET) while check_proof_of_work returns false because of the
target ≤ 0 guard the claim omits. -/
theorem claim_C3_counterexample :
    check_proof_of_work null_hash 0 = false ∧
      (hash_number null_hash : Int) ≤ decompact 0 ∧
      decompact 0 ≤ max_target := by
  have hdec : decompact 0 = 0 := rfl
  have hhn : hash_number null_hash = 0 := rfl
  refine ⟨rfl, ?_, ?_⟩
  · rw [hdec, hhn]
    norm_num
  · rw [hdec]
    norm_num [max_target]

/-- Claim C3 (amended): check_proof_of_work returns true iff the decoded
target is positive, the little-endian value of the hash is at most the
target, and the target is at most MAX_TARGET. -/
theorem claim_C3_check_proof_of_work (block_hash : hash_digest) (bits : Nat) :
    check_proof_of_work block_hash bits = true ↔
      (0 < decompact bits ∧
        (hash_number block_hash : Int) ≤ decompact bits ∧
        decompact bits ≤ max_target) := by
  unfold check_proof_of_work
  split_ifs with h1 h2 <;> simp <;> omega

/-- range_constraint translated from the source. -/
def range_constraint (value minimum maximum : Nat) : Nat :=
  if value < minimum then minimum
  else if value > maximum then maximum
  else value

/-- validate_block::work_required translated from the source; the ancestor
view enters through the previous block bits and the actual timespan of the
readjustment interval, and the big-number arithmetic is exact integer
arithmetic with truncating division as in OpenSSL. -/
def work_required (depth previous_block_bits actual_timespan_value : Nat) : Nat :=
  if depth = 0 then max_bits
  else if depth % readjustment_interval ≠ 0 then previous_block_bits
  else
    compact_of
      (if Int.tdiv (decompact previous_block_bits *
            (range_constraint actual_timespan_value (target_timespan / 4)
              (target_timespan * 4) : Nat)) (target_timespan : Int) >
          max_target
       then max_target
       else Int.tdiv (decompact previous_block_bits *
            (range_constraint actual_timespan_value (target_timespan / 4)
              (target_timespan * 4) : Nat)) (target_timespan : Int))

/-- Claim-side restatement of work_required written from the words of the
claim: the compact encoding of min(MAX_TARGET, decompact(previous bits) *
clamp(actual, TARGET_TIMESPAN/4, TARGET_TIMESPAN*4) / TARGET_TIMESPAN). -/
def work_required_claim (depth previous_block_bits actual_timespan_value : Nat) : Nat :=
  if depth = 0 then max_bits
  else if depth % readjustment_interval ≠ 0 then previous_block_bits
  else
    compact_of (min max_target
      (Int.tdiv (decompact previous_block_bits *
        ((min (max actual_timespan_value (target_timespan / 4))
          (target_timespan * 4) : Nat) : Int))
        (target_timespan : Int)))

theorem range_constraint_eq_clamp (v lo hi : Nat) (h : lo ≤ hi) :
    range_constraint v lo hi = min (max v lo) hi := by
  unfold range_constraint
  split_ifs <;> omega

/-- Claim C4: work_required returns MAX_BITS at height 0, the previous bits
off the readjustment boundary, and otherwise the compact encoding of
min(MAX_TARGET, previous target * clamped timespan / TARGET_TIMESPAN) in
exact big-integer arithmetic. -/
theorem claim_C4_work_required (depth previous_block_bits actual_timespan_value : Nat) :
    work_required depth previous_block_bits actual_timespan_value =
      work_required_claim depth previous_block_bits actual_timespan_value := by
  unfold work_required work_required_claim
  split_ifs with h1 h2 h3
  · rfl
  · rfl
  · rw [range_constraint_eq_clamp _ _ _ (by norm_num [target_timespan])] at h3
    rw [min_eq_left h3.le]
  · rw [range_constraint_eq_clamp _ _ _ (by norm_num [target_timespan])] at h3 ⊢
    rw [min_eq_right (not_lt.mp h3)]

/-- The wrapped 64-bit subtraction a - b of size_t values. -/
def u64_sub (a b : Nat) : Nat :=
  (a % u64_mod + (u64_mod - b % u64_mod)) % u64_mod

/-- validate_transaction::connect_input translated from the source: none
models the asserted-but-unchecked access tx.inputs[current_input]; the
first bounds-checked lookup of the previous output returns false on an
out-of-range index; the result pairs the returned Bool with the value_in
reference after the call.  The script is run without a BIP16 flag, as in
the source. -/
def vt_connect_input (sc : script_ctx) (tx : transaction) (current_input : Nat)
    (previous_tx : transaction) (parent_depth last_block_depth value_in : Nat) :
    Option (Bool × Nat) :=
  match tx.inputs.get? current_input with
  | none => none
  | some input =>
    match previous_tx.outputs.get? input.previous_output.index with
    | none => some (false, value_in)
    | some previous_output =>
      if previous_output.value > max_money then some (false, value_in)
      else if is_coinbase previous_tx ∧
          u64_sub last_block_depth parent_depth < coinbase_maturity then
        some (false, value_in)
      else if ¬ sc.run previous_output.output_script input.input_script
          tx current_input false then
        some (false, value_in)
      else if (value_in + previous_output.value) % u64_mod > max_money then
        some (false, (value_in + previous_output.value) % u64_mod)
      else some (true, (value_in + previous_output.value) % u64_mod)

/-- The synchronous chain view and the per-validation parameters of the
block validator: the claimed depth, the block under validation, and the
storage oracles. -/
structure block_ctx where
  depth : Nat
  current_block : block
  transaction_exists : hash_digest → Bool
  fetch_transaction : hash_digest → Option (transaction × Nat)
  is_output_spent : output_point → Bool
  is_output_spent_at : output_point → Nat → Nat → Bool

/-- validate_block::script_hash_signature_operations_count translated from
the source; the none branch of the last push is the case the source guards
by the emptiness check. -/
def script_hash_signature_operations_count (sc : script_ctx)
    (output_script input_script : script) : Nat :=
  if ¬ sc.is_script_hash output_script then
    count_script_sigops output_script.operations true
  else
    match input_script.operations.getLast? with
    | none => 0
    | some op => count_script_sigops ((sc.parse_script op.data).operations) true

/-- validate_block::connect_input translated from the source: none models an
unchecked vector access that is out of bounds (either the asserted input
index, or the previous-output indexing that the source performs with no
bounds check at all); some (b, v, s) pairs the returned Bool with the
value_in and total_sigops references after the call. -/
def vb_connect_input (bc : block_ctx) (sc : script_ctx) (index_in_parent : Nat)
    (current_tx : transaction) (input_index value_in total_sigops : Nat) :
    Option (Bool × Nat × Nat) :=
  match current_tx.inputs.get? input_index with
  | none => none
  | some input =>
    match bc.fetch_transaction input.previous_output.hash with
    | none => some (false, value_in, total_sigops)
    | some (previous_tx, previous_depth) =>
      match previous_tx.outputs.get? input.previous_output.index with
      | none => none
      | some previous_tx_out =>
        let total_sigops' := total_sigops +
          script_hash_signature_operations_count sc
            previous_tx_out.output_script input.input_script
        if total_sigops' > max_block_script_sig_operations then
          some (false, value_in, total_sigops')
        else if previous_tx_out.value > max_money then
          some (false, value_in, total_sigops')
        else if is_coinbase previous_tx ∧
            u64_sub bc.depth previous_depth % u32_mod < coinbase_maturity then
          some (false, value_in, total_sigops')
        else if ¬ sc.run previous_tx_out.output_script input.input_script
            current_tx input_index
            (decide (bc.current_block.timestamp ≥ bip16_switchover_timestamp)) then
          some (false, value_in, total_sigops')
        else if bc.is_output_spent_at input.previous_output index_in_parent
            input_index then
          some (false, value_in, total_sigops')
        else if (value_in + previous_tx_out.value) % u64_mod > max_money then
          some (false, (value_in + previous_tx_out.value) % u64_mod, total_sigops')
        else some (true, (value_in + previous_tx_out.value) % u64_mod, total_sigops')

/-- A concrete transaction whose single input references output index 5 of
its parent. -/
def tx_bad_index : transaction where
  version := 1
  inputs := [⟨⟨hash_one, 5⟩, ⟨[]⟩, 0⟩]
  outputs := [⟨1, ⟨[]⟩⟩]
  lock_time := 0

/-- A concrete block with no transactions, used only to supply header
fields to concrete block contexts. -/
def block_trivial : block where
  version := 1
  previous_block_hash := null_hash
  merkle := null_hash
  timestamp := 0
  bits := 0
  nonce := 0
  transactions := []

/-- A concrete chain view whose transaction fetch always returns tx_simple
(one output) at depth 0, with nothing spent and nothing existing. -/
def bc_oob : block_ctx where
  depth := 1
  current_block := block_trivial
  transaction_exists := fun _ => false
  fetch_transaction := fun _ => some (tx_simple, 0)
  is_output_spent := fun _ => false
  is_output_spent_at := fun _ _ _ => false

/-- Claim C9: the block-connection connect_input indexes the fetched parent
transaction's outputs without a bounds check, so an input whose
previous_output.index (5) is at least the parent's output count (1) drives
it out of bounds, while the mempool-path connect_input rejects the same
data with an explicit bounds check, returning false. -/
theorem claim_C9_block_path_oob :
    5 ≥ tx_simple.outputs.length ∧
      vb_connect_input bc_oob sc_trivial 1 tx_bad_index 0 0 0 = none ∧
      vt_connect_input sc_trivial tx_bad_index 0 tx_simple 0 1000 0 =
        some (false, 0) := by
  refine ⟨by decide, rfl, rfl⟩

/-- A concrete coinbase transaction with one output of value 1. -/
def tx_coinbase : transaction where
  version := 1
  inputs := [⟨⟨null_hash, max_index⟩, ⟨[]⟩, 0⟩]
  outputs := [⟨1, ⟨[]⟩⟩]
  lock_time := 0

/-- Computation of the mempool-path connect_input on a concrete family in
which every check other than the coinbase-maturity test passes: the
outcome is decided by the wrapped 64-bit depth difference. -/
theorem vt_connect_input_maturity_reduction (parent_depth last_block_depth : Nat) :
    vt_connect_input sc_trivial tx_simple 0 tx_coinbase parent_depth
        last_block_depth 0 =
      if u64_sub last_block_depth parent_depth < coinbase_maturity then
        some (false, 0)
      else some (true, 1) := by
  norm_num [vt_connect_input, tx_simple, tx_coinbase, sc_trivial, is_coinbase,
    previous_output_is_null, max_index, null_hash, max_money, u64_mod]

/-- Counterexample to claim C10 as stated: a call with a coinbase parent and
parent_depth = 2^64 - 1 greater than last_block_depth = 0, where the
wrapped difference is 1 < COINBASE_MATURITY, so the maturity check fails
even though the claim says every such call passes it, and says failure
occurs only when parent_depth ≤ last_block_depth. -/
theorem claim_C10_counterexample :
    is_coinbase tx_coinbase = true ∧
      u64_mod - 1 > 0 ∧
      vt_connect_input sc_trivial tx_simple 0 tx_coinbase (u64_mod - 1) 0 0 =
        some (false, 0) := by
  refine ⟨by decide, by norm_num [u64_mod], ?_⟩
  rw [vt_connect_input_maturity_reduction]
  norm_num [u64_sub, u64_mod, coinbase_maturity]

/-- Claim C10 (amended): in the mempool-path connect_input the maturity test
uses the wrapped 64-bit difference of size_t values, so on a call that
otherwise passes every other check it fails exactly when
(last_block_depth - parent_depth) wrapped modulo 2^64 is below
COINBASE_MATURITY; in particular whenever parent_depth exceeds
last_block_depth by at most 2^64 - COINBASE_MATURITY the wrapped
difference is at least COINBASE_MATURITY and the check passes. -/
theorem claim_C10_wrapped_maturity (parent_depth last_block_depth : Nat)
    (hp : parent_depth < u64_mod) (hl : last_block_depth < u64_mod) :
    (vt_connect_input sc_trivial tx_simple 0 tx_coinbase parent_depth
        last_block_depth 0 = some (false, 0) ↔
      u64_sub last_block_depth parent_depth < coinbase_maturity) ∧
    (parent_depth > last_block_depth →
      parent_depth - last_block_depth ≤ u64_mod - coinbase_maturity →
      coinbase_maturity ≤ u64_sub last_block_depth parent_depth ∧
        vt_connect_input sc_trivial tx_simple 0 tx_coinbase parent_depth
          last_block_depth 0 = some (true, 1)) := by
  rw [vt_connect_input_maturity_reduction]
  constructor
  · split_ifs with h
    · simp [h]
    · simp [h]
  · intro hgt hle
    have hge : coinbase_maturity ≤ u64_sub last_block_depth parent_depth := by
      simp only [u64_sub, u64_mod, coinbase_maturity] at hp hl hle ⊢
      omega
    refine ⟨hge, ?_⟩
    rw [if_neg (Nat.not_lt.mpr hge)]

/-- Witness for claim C10 (amended): parent_depth 200 exceeds
last_block_depth 100, the wrapped difference 2^64 - 100 is at least
COINBASE_MATURITY and the maturity check passes. -/
theorem claim_C10_witness :
    (200 < u64_mod ∧ 100 < u64_mod ∧ 200 > 100 ∧
      200 - 100 ≤ u64_mod - coinbase_maturity) ∧
      (coinbase_maturity ≤ u64_sub 100 200 ∧
        vt_connect_input sc_trivial tx_simple 0 tx_coinbase 200 100 0 =
          some (true, 1)) :=
  ⟨by norm_num [u64_mod, coinbase_maturity],
    (claim_C10_wrapped_maturity 200 100 (by norm_num [u64_mod])
      (by norm_num [u64_mod])).2 (by norm_num)
      (by norm_num [u64_mod, coinbase_maturity])⟩

/-- validate_transaction::tally_fees translated from the source: none is
the false return (value_in below value_out, or accumulated fees above
MAX_MONEY), some gives the total_fees reference after a true return. -/
def tally_fees (tx : transaction) (value_in total_fees : Nat) : Option Nat :=
  if value_in < total_output_value tx then none
  else
    if (total_fees + (value_in - total_output_value tx)) % u64_mod >
        max_money then none
    else some ((total_fees + (value_in - total_output_value tx)) % u64_mod)

/-- tx_legacy_sigops_count translated from the source: inaccurate sigop
counting over all input scripts and then all output scripts. -/
def tx_legacy_sigops_count (tx : transaction) : Nat :=
  (tx.inputs.map
    (fun input => count_script_sigops input.input_script.operations false)).sum +
    (tx.outputs.map
      (fun output => count_script_sigops output.output_script.operations false)).sum

/-- The loop of validate_block::validate_inputs over the listed input
indices, threading value_in and total_sigops; none propagates an
out-of-bounds access from connect_input, false an input that failed. -/
def vb_validate_inputs_go (bc : block_ctx) (sc : script_ctx)
    (tx : transaction) (index_in_parent : Nat) :
    List Nat → Nat → Nat → Option (Bool × Nat × Nat)
  | [], value_in, total_sigops => some (true, value_in, total_sigops)
  | i :: rest, value_in, total_sigops =>
    match vb_connect_input bc sc index_in_parent tx i value_in total_sigops with
    | none => none
    | some (false, v, s) => some (false, v, s)
    | some (true, v, s) => vb_validate_inputs_go bc sc tx index_in_parent rest v s

/-- validate_block::validate_inputs translated from the source. -/
def vb_validate_inputs (bc : block_ctx) (sc : script_ctx) (tx : transaction)
    (index_in_parent value_in total_sigops : Nat) : Option (Bool × Nat × Nat) :=
  vb_validate_inputs_go bc sc tx index_in_parent
    (List.range tx.inputs.length) value_in total_sigops

/-- The per-transaction loop of connect_block starting at index 1: legacy
sigops are accumulated and bounded, inputs validated and fees tallied;
none models an out-of-bounds access inside connect_input, Except.error an
early error return and Except.ok the accumulated fees. -/
def connect_block_loop (bc : block_ctx) (sc : script_ctx) :
    List transaction → Nat → Nat → Nat → Option (Except error_code Nat)
  | [], _, fees, _ => some (Except.ok fees)
  | tx :: rest, tx_index, fees, total_sigops =>
    if total_sigops + tx_legacy_sigops_count tx >
        max_block_script_sig_operations then
      some (Except.error error_code.too_many_sigs)
    else
      match vb_validate_inputs bc sc tx tx_index 0
          (total_sigops + tx_legacy_sigops_count tx) with
      | none => none
      | some (false, _, _) => some (Except.error error_code.validate_inputs_failed)
      | some (true, value_in, total_sigops') =>
        match tally_fees tx value_in fees with
        | none => some (Except.error error_code.fees_out_of_range)
        | some fees' => connect_block_loop bc sc rest (tx_index + 1) fees' total_sigops'

/-- validate_block::not_duplicate_or_spent translated from the source. -/
def not_duplicate_or_spent (bc : block_ctx) (sc : script_ctx)
    (tx : transaction) : Bool :=
  if ¬ bc.transaction_exists (sc.hash_transaction tx) then true
  else
    (List.range tx.outputs.length).all
      (fun output_index =>
        bc.is_output_spent ⟨sc.hash_transaction tx, output_index⟩)

/-- validate_block::connect_block translated from the source: the BIP30
check first (skipped entirely at the two exempt heights), then the
per-transaction loop from index 1, then the coinbase-value bound; none
models an unchecked vector access, some none success, some (some e) the
error e. -/
def connect_block (bc : block_ctx) (sc : script_ctx) : Option (Option error_code) :=
  if bc.depth ≠ 91842 ∧ bc.depth ≠ 91880 ∧
      ¬ bc.current_block.transactions.all (not_duplicate_or_spent bc sc) then
    some (some error_code.duplicate_or_spent)
  else
    match connect_block_loop bc sc (bc.current_block.transactions.drop 1) 1 0 0 with
    | none => none
    | some (Except.error e) => some (some e)
    | some (Except.ok fees) =>
      match bc.current_block.transactions.get? 0 with
      | none => none
      | some coinbase_tx =>
        if total_output_value coinbase_tx > block_value bc.depth + fees then
          some (some error_code.coinbase_too_large)
        else some none

theorem not_duplicate_or_spent_false_iff (bc : block_ctx) (sc : script_ctx)
    (tx : transaction) :
    not_duplicate_or_spent bc sc tx = false ↔
      (bc.transaction_exists (sc.hash_transaction tx) = true ∧
        ∃ i < tx.outputs.length,
          bc.is_output_spent ⟨sc.hash_transaction tx, i⟩ = false) := by
  unfold not_duplicate_or_spent
  by_cases h : bc.transaction_exists (sc.hash_transaction tx) = true
  · rw [if_neg (by simpa using h)]
    simp [List.all_eq_false, List.mem_range, h]
  · rw [if_pos (by simpa using h)]
    simp [h]

theorem connect_block_loop_no_dup (bc : block_ctx) (sc : script_ctx) :
    ∀ (txs : List transaction) (i fees sigs : Nat),
      connect_block_loop bc sc txs i fees sigs ≠
        some (Except.error error_code.duplicate_or_spent) := by
  intro txs
  induction txs with
  | nil =>
    intro i fees sigs h
    simp [connect_block_loop] at h
  | cons tx rest ih =>
    intro i fees sigs h
    simp only [connect_block_loop] at h
    split_ifs at h with hs
    · simp at h
    · rcases hv : vb_validate_inputs bc sc tx i 0
          (sigs + tx_legacy_sigops_count tx) with _ | ⟨b, v, s⟩
      · rw [hv] at h
        simp at h
      · rw [hv] at h
        cases b
        · simp at h
        · dsimp only at h
          rcases ht : tally_fees tx v fees with _ | fees2
          · rw [ht] at h
            simp at h
          · rw [ht] at h
            exact ih _ _ _ h

/-- Claim C7: connect_block returns duplicate_or_spent exactly when the
height is neither 91842 nor 91880 and some transaction of the block has a
previously confirmed transaction under the same hash one of whose outputs
(outpoints under that hash at indices below the output count) is not yet
spent; at the two exempt heights the check is skipped entirely. -/
theorem claim_C7_bip30 (bc : block_ctx) (sc : script_ctx) :
    connect_block bc sc = some (some error_code.duplicate_or_spent) ↔
      (bc.depth ≠ 91842 ∧ bc.depth ≠ 91880 ∧
        ∃ tx ∈ bc.current_block.transactions,
          bc.transaction_exists (sc.hash_transaction tx) = true ∧
          ∃ i < tx.outputs.length,
            bc.is_output_spent ⟨sc.hash_transaction tx, i⟩ = false) := by
  unfold connect_block
  split_ifs with h
  · refine iff_of_true rfl ⟨h.1, h.2.1, ?_⟩
    have h3 := h.2.2
    rw [Bool.not_eq_true, List.all_eq_false] at h3
    obtain ⟨tx, htx, hnd⟩ := h3
    exact ⟨tx, htx, (not_duplicate_or_spent_false_iff bc sc tx).mp
      (by simpa using hnd)⟩
  · refine iff_of_false ?_ ?_
    · intro hl
      rcases hloop : connect_block_loop bc sc
          (bc.current_block.transactions.drop 1) 1 0 0 with _ | exc
      · rw [hloop] at hl
        simp at hl
      · rcases exc with e | fees
        · rw [hloop] at hl
          simp only [Option.some.injEq] at hl
          have he : e = error_code.duplicate_or_spent := by
            simpa using hl
          exact connect_block_loop_no_dup bc sc _ 1 0 0 (by rw [hloop, he])
        · rw [hloop] at hl
          dsimp only at hl
          rcases hcb : bc.current_block.transactions.get? 0 with _ | cb
          · rw [hcb] at hl
            simp at hl
          · rw [hcb] at hl
            dsimp only at hl
            split_ifs at hl with hv
            · simp at hl
            · simp at hl
    · intro hc
      apply h
      refine ⟨hc.1, hc.2.1, ?_⟩
      rw [Bool.not_eq_true, List.all_eq_false]
      obtain ⟨tx, htx, hcond⟩ := hc.2.2
      exact ⟨tx, htx,
        by simp [(not_duplicate_or_spent_false_iff bc sc tx).mpr hcond]⟩

/-- Claim C6: when connect_block succeeds the coinbase output total is at
most subsidy(height) plus the fees accumulated over the non-coinbase
transactions, and when that total exceeds subsidy plus fees (the earlier
phases passing) connect_block returns coinbase_too_large. -/
theorem claim_C6_coinbase_value (bc : block_ctx) (sc : script_ctx)
    (fees : Nat) (coinbase_tx : transaction)
    (hloop : connect_block_loop bc sc
      (bc.current_block.transactions.drop 1) 1 0 0 = some (Except.ok fees))
    (hcb : bc.current_block.transactions.get? 0 = some coinbase_tx) :
    (connect_block bc sc = some none →
      total_output_value coinbase_tx ≤ block_value bc.depth + fees) ∧
    ((bc.depth = 91842 ∨ bc.depth = 91880 ∨
        bc.current_block.transactions.all (not_duplicate_or_spent bc sc) = true) →
      total_output_value coinbase_tx > block_value bc.depth + fees →
      connect_block bc sc = some (some error_code.coinbase_too_large)) := by
  constructor
  · intro hok
    unfold connect_block at hok
    split_ifs at hok with h
    · simp at hok
    · rw [hloop] at hok
      dsimp only at hok
      rw [hcb] at hok
      dsimp only at hok
      split_ifs at hok with hv
      · simp at hok
      · omega
  · intro hpass hgt
    have hno : ¬(bc.depth ≠ 91842 ∧ bc.depth ≠ 91880 ∧
        ¬ bc.current_block.transactions.all (not_duplicate_or_spent bc sc) = true) := by
      rcases hpass with h | h | h <;> tauto
    unfold connect_block
    rw [if_neg hno, hloop]
    dsimp only
    rw [hcb]
    dsimp only
    rw [if_pos hgt]

/-- A concrete block holding only the coinbase transaction tx_coinbase. -/
def block_coinbase_only : block where
  version := 1
  previous_block_hash := null_hash
  merkle := null_hash
  timestamp := 0
  bits := 0
  nonce := 0
  transactions := [tx_coinbase]

/-- A concrete chain view for block_coinbase_only at depth 0 where nothing
exists and nothing is spent. -/
def bc_coinbase_only : block_ctx where
  depth := 0
  current_block := block_coinbase_only
  transaction_exists := fun _ => false
  fetch_transaction := fun _ => none
  is_output_spent := fun _ => false
  is_output_spent_at := fun _ _ _ => false

/-- Witness for claim C6: the coinbase-only block at depth 0 with zero fees
satisfies the hypotheses, and the theorem applies to it. -/
theorem claim_C6_witness :
    (connect_block_loop bc_coinbase_only sc_trivial
        (bc_coinbase_only.current_block.transactions.drop 1) 1 0 0 =
          some (Except.ok 0) ∧
      bc_coinbase_only.current_block.transactions.get? 0 = some tx_coinbase) ∧
    ((connect_block bc_coinbase_only sc_trivial = some none →
        total_output_value tx_coinbase ≤ block_value bc_coinbase_only.depth + 0) ∧
      ((bc_coinbase_only.depth = 91842 ∨ bc_coinbase_only.depth = 91880 ∨
          bc_coinbase_only.current_block.transactions.all
            (not_duplicate_or_spent bc_coinbase_only sc_trivial) = true) →
        total_output_value tx_coinbase > block_value bc_coinbase_only.depth + 0 →
        connect_block bc_coinbase_only sc_trivial =
          some (some error_code.coinbase_too_large))) :=
  ⟨⟨rfl, rfl⟩,
    claim_C6_coinbase_value bc_coinbase_only sc_trivial 0 tx_coinbase rfl rfl⟩

/-- One entry of the transaction memory pool snapshot. -/
structure transaction_entry_info where
  hash : hash_digest
  tx : transaction

/-- The static context of one mempool validation: the external black
boxes, the transaction under validation and the pool snapshot. -/
structure tx_ctx where
  sc : script_ctx
  tx : transaction
  pool : List transaction_entry_info

/-- validate_transaction::fetch translated from the source: linear scan of
the pool snapshot for the first entry with the given hash. -/
def pool_fetch (pool : List transaction_entry_info) (tx_hash : hash_digest) :
    Option transaction :=
  match pool with
  | [] => none
  | entry :: rest =>
    if entry.hash = tx_hash then some entry.tx else pool_fetch rest tx_hash

/-- validate_transaction::is_spent translated from the source: does some
pool transaction already spend the outpoint. -/
def pool_is_spent (pool : List transaction_entry_info)
    (outpoint : output_point) : Bool :=
  pool.any (fun entry =>
    entry.tx.inputs.any (fun input => input.previous_output == outpoint))

/-- validate_transaction::is_standard translated from the source: the
standardness policy is a placeholder that always holds. -/
def is_standard : Bool := true

/-- validate_transaction::basic_checks translated from the source. -/
def basic_checks (tv : tx_ctx) : error_code :=
  if check_transaction tv.sc tv.tx ≠ error_code.ok then
    check_transaction tv.sc tv.tx
  else if is_coinbase tv.tx then error_code.coinbase_transaction
  else if ¬ is_standard then error_code.is_not_standard
  else if (pool_fetch tv.pool (tv.sc.hash_transaction tv.tx)).isSome then
    error_code.duplicate
  else error_code.ok

/-- The suspension points and terminal states of the asynchronous
transaction validator.  Each running constructor records the mutable
cursor the source object carries across callbacks (current_input,
value_in, last_block_depth, unconfirmed); done records the handler
invocation with its error code and index list; ub is an absorbing sink for
a violated input-index assertion, never reached from a well-started run. -/
inductive tx_state where
  | dup_check
  | last_depth
  | prev_index (current_input value_in last_block_depth : Nat)
      (unconfirmed : List Nat)
  | prev_body (parent_depth current_input value_in last_block_depth : Nat)
      (unconfirmed : List Nat)
  | spend_check (current_input value_in last_block_depth : Nat)
      (unconfirmed : List Nat)
  | done (ec : error_code) (indexes : List Nat)
  | ub
  deriving DecidableEq

/-- One oracle reply: an error code plus the payload fields any callback
can carry (a fetched transaction and a depth); the awaited callback
projects the fields it uses, so a reply list models arbitrary oracle
behaviour. -/
structure oracle_reply where
  ec : error_code
  rtx : transaction
  num : Nat

/-- validate_transaction::start translated from the source: the immediate
basic checks either invoke the handler at once (a done state) or leave the
validator awaiting the blockchain duplicate-check reply. -/
def tx_start (tv : tx_ctx) : tx_state :=
  if basic_checks tv ≠ error_code.ok then tx_state.done (basic_checks tv) []
  else tx_state.dup_check

/-- One oracle-reply-driven step of the transaction validator, gathering
handle_duplicate_check, set_last_depth, previous_tx_index (with the
synchronous search_pool_previous_tx, whose push of the input index onto
unconfirmed lands before the next callback), handle_previous_tx and
check_double_spend from the source.  done and ub are absorbing. -/
def tx_step (tv : tx_ctx) : tx_state → oracle_reply → tx_state
  | tx_state.dup_check, r =>
    if r.ec ≠ error_code.not_found then tx_state.done error_code.duplicate []
    else if tv.tx.inputs.any
        (fun input => pool_is_spent tv.pool input.previous_output) then
      tx_state.done error_code.double_spend []
    else tx_state.last_depth
  | tx_state.last_depth, r =>
    if r.ec ≠ error_code.ok then tx_state.done r.ec []
    else tx_state.prev_index 0 0 r.num []
  | tx_state.prev_index i v last unc, r =>
    if r.ec ≠ error_code.ok then
      match tv.tx.inputs.get? i with
      | none => tx_state.ub
      | some input =>
        match pool_fetch tv.pool input.previous_output.hash with
        | none => tx_state.done error_code.input_not_found [i]
        | some previous_tx =>
          match vt_connect_input tv.sc tv.tx i previous_tx 0 last v with
          | none => tx_state.ub
          | some (false, _) =>
            tx_state.done error_code.validate_inputs_failed []
          | some (true, v2) => tx_state.spend_check i v2 last (unc ++ [i])
    else tx_state.prev_body r.num i v last unc
  | tx_state.prev_body parent_depth i v last unc, r =>
    if r.ec ≠ error_code.ok then tx_state.done error_code.input_not_found [i]
    else
      match vt_connect_input tv.sc tv.tx i r.rtx parent_depth last v with
      | none => tx_state.ub
      | some (false, _) => tx_state.done error_code.validate_inputs_failed []
      | some (true, v2) => tx_state.spend_check i v2 last unc
  | tx_state.spend_check i v last unc, r =>
    if r.ec = error_code.unspent_output then
      if i + 1 = tv.tx.inputs.length then tx_state.done error_code.ok unc
      else tx_state.prev_index (i + 1) v last unc
    else tx_state.done error_code.double_spend []
  | tx_state.done ec indexes, _ => tx_state.done ec indexes
  | tx_state.ub, _ => tx_state.ub

/-- Whether a state is terminal (the handler has been invoked). -/
def is_done : tx_state → Bool
  | tx_state.done _ _ => true
  | _ => false

/-- The handler invocation a state carries: the error code and index list
of a done state. -/
def state_call : tx_state → List (error_code × List Nat)
  | tx_state.done ec indexes => [(ec, indexes)]
  | _ => []

/-- The handler invocations a running validator emits while consuming a
list of oracle replies: a call is recorded exactly when a step moves a
non-terminal state into done. -/
def tx_steps_calls (tv : tx_ctx) :
    tx_state → List oracle_reply → List (error_code × List Nat)
  | _, [] => []
  | s, r :: rs =>
    (if is_done s then [] else state_call (tx_step tv s r)) ++
      tx_steps_calls tv (tx_step tv s r) rs

/-- All handler invocations of one run started by start: the invocation
start itself makes when the basic checks fail, followed by the
reply-driven ones. -/
def tx_run_calls (tv : tx_ctx) (rs : List oracle_reply) :
    List (error_code × List Nat) :=
  state_call (tx_start tv) ++ tx_steps_calls tv (tx_start tv) rs

theorem tx_steps_calls_done (tv : tx_ctx) (ec : error_code) (l : List Nat) :
    ∀ rs, tx_steps_calls tv (tx_state.done ec l) rs = [] := by
  intro rs
  induction rs with
  | nil => rfl
  | cons r rs ih => simp [tx_steps_calls, tx_step, is_done, ih]

/-- A concrete validation context: tx_simple against an empty pool. -/
def tx_ctx_simple : tx_ctx where
  sc := sc_trivial
  tx := tx_simple
  pool := []

/-- Counterexample to claim C2 as stated: on a run of tx_ctx_simple whose
duplicate-check reply carries service_stopped, the single handler
invocation carries duplicate, not the received service_stopped. -/
theorem claim_C2_counterexample :
    tx_run_calls tx_ctx_simple
        [⟨error_code.service_stopped, tx_simple, 0⟩] =
      [(error_code.duplicate, [])] ∧
      error_code.duplicate ≠ error_code.service_stopped := by
  exact ⟨rfl, by decide⟩

/-- Claim C2 (amended): for every run whose basic checks pass and whose
duplicate-check reply carries any error code other than not_found
(service_stopped included), the run finishes with the single handler
invocation (duplicate, []), whatever replies follow. -/
theorem claim_C2_duplicate_check_error (tv : tx_ctx) (r : oracle_reply)
    (rs : List oracle_reply)
    (hstart : basic_checks tv = error_code.ok)
    (h : r.ec ≠ error_code.not_found) :
    tx_run_calls tv (r :: rs) = [(error_code.duplicate, [])] := by
  unfold tx_run_calls tx_start
  rw [if_neg (by simp [hstart])]
  simp [tx_steps_calls, is_done, state_call, tx_step, h, tx_steps_calls_done]

/-- Witness for claim C2 (amended): the concrete run of
claim_C2_counterexample satisfies the hypotheses and the theorem applies. -/
theorem claim_C2_witness :
    (basic_checks tx_ctx_simple = error_code.ok ∧
      (error_code.service_stopped : error_code) ≠ error_code.not_found) ∧
      tx_run_calls tx_ctx_simple
          [⟨error_code.service_stopped, tx_simple, 1⟩] =
        [(error_code.duplicate, [])] :=
  ⟨⟨by decide, by decide⟩,
    claim_C2_duplicate_check_error tx_ctx_simple
      ⟨error_code.service_stopped, tx_simple, 1⟩ [] (by decide) (by decide)⟩

/-- The mempool-path connect_input can only report the undefined access
when the input index itself is out of range. -/
theorem vt_connect_input_ne_none (sc : script_ctx) (tx : transaction)
    (i : Nat) (ptx : transaction) (pd last v : Nat)
    (input : transaction_input) (h : tx.inputs.get? i = some input) :
    vt_connect_input sc tx i ptx pd last v ≠ none := by
  unfold vt_connect_input
  rw [h]
  dsimp only
  rcases ho : ptx.outputs.get? input.previous_output.index with _ | po
  · simp
  · dsimp only
    split_ifs <;> simp

/-- States a well-started validator can inhabit: the input list is
nonempty before the per-input loop and the cursor stays strictly below
the input count inside it; the undefined sink is unreachable. -/
def state_ok (tv : tx_ctx) : tx_state → Prop
  | tx_state.dup_check => tv.tx.inputs ≠ []
  | tx_state.last_depth => tv.tx.inputs ≠ []
  | tx_state.prev_index i _ _ _ => i < tv.tx.inputs.length
  | tx_state.prev_body _ i _ _ _ => i < tv.tx.inputs.length
  | tx_state.spend_check i _ _ _ => i < tv.tx.inputs.length
  | tx_state.done _ _ => True
  | tx_state.ub => False

/-- An upper bound on the replies a state still consumes before the
handler fires. -/
def measure_state (tv : tx_ctx) : tx_state → Nat
  | tx_state.dup_check => 2 + 3 * tv.tx.inputs.length
  | tx_state.last_depth => 1 + 3 * tv.tx.inputs.length
  | tx_state.prev_index i _ _ _ => 3 * (tv.tx.inputs.length - i)
  | tx_state.prev_body _ i _ _ _ => 3 * (tv.tx.inputs.length - i) - 1
  | tx_state.spend_check i _ _ _ => 3 * (tv.tx.inputs.length - i) - 2
  | tx_state.done _ _ => 0
  | tx_state.ub => 0

theorem measure_state_pos (tv : tx_ctx) (s : tx_state)
    (hok : state_ok tv s) (hnd : is_done s = false) :
    1 ≤ measure_state tv s := by
  cases s <;> simp_all [state_ok, is_done, measure_state] <;> omega

/-- Every reply to a reachable non-terminal state keeps the run reachable
and strictly decreases the measure; in particular no reachable run steps
into the undefined sink. -/
theorem tx_step_progress (tv : tx_ctx) (s : tx_state) (r : oracle_reply)
    (hok : state_ok tv s) (hnd : is_done s = false) :
    state_ok tv (tx_step tv s r) ∧
      measure_state tv (tx_step tv s r) < measure_state tv s := by
  cases s with
  | dup_check =>
    have hne : tv.tx.inputs ≠ [] := hok
    simp only [tx_step]
    split_ifs with h1 h2
    · exact ⟨trivial, by simp only [measure_state]; omega⟩
    · exact ⟨trivial, by simp only [measure_state]; omega⟩
    · exact ⟨hne, by simp only [measure_state]; omega⟩
  | last_depth =>
    have hne : tv.tx.inputs ≠ [] := hok
    have hpos : 0 < tv.tx.inputs.length := List.length_pos.mpr hne
    simp only [tx_step]
    split_ifs with h1
    · exact ⟨trivial, by simp only [measure_state]; omega⟩
    · exact ⟨hpos, by simp only [measure_state]; omega⟩
  | prev_index i v last unc =>
    have hn : i < tv.tx.inputs.length := hok
    simp only [tx_step]
    split_ifs with h1
    · rcases hg : tv.tx.inputs.get? i with _ | input
      · rw [List.get?_eq_none] at hg
        omega
      · dsimp only
        rcases hp : pool_fetch tv.pool input.previous_output.hash with _ | ptx
        · exact ⟨trivial, by dsimp only; simp only [measure_state]; omega⟩
        · dsimp only
          rcases hv : vt_connect_input tv.sc tv.tx i ptx 0 last v with _ | ⟨b, v2⟩
          · exact absurd hv (vt_connect_input_ne_none tv.sc tv.tx i ptx 0 last v input hg)
          · cases b
            · exact ⟨trivial, by dsimp only; simp only [measure_state]; omega⟩
            · exact ⟨hn, by dsimp only; simp only [measure_state]; omega⟩
    · exact ⟨hn, by simp only [measure_state]; omega⟩
  | prev_body pd i v last unc =>
    have hn : i < tv.tx.inputs.length := hok
    have hg := List.get?_eq_get hn
    simp only [tx_step]
    split_ifs with h1
    · exact ⟨trivial, by simp only [measure_state]; omega⟩
    · rcases hv : vt_connect_input tv.sc tv.tx i r.rtx pd last v with _ | ⟨b, v2⟩
      · exact absurd hv
          (vt_connect_input_ne_none tv.sc tv.tx i r.rtx pd last v _ hg)
      · cases b
        · exact ⟨trivial, by dsimp only; simp only [measure_state]; omega⟩
        · exact ⟨hn, by dsimp only; simp only [measure_state]; omega⟩
  | spend_check i v last unc =>
    have hn : i < tv.tx.inputs.length := hok
    simp only [tx_step]
    split_ifs with h1 h2
    · exact ⟨trivial, by simp only [measure_state]; omega⟩
    · refine ⟨show i + 1 < tv.tx.inputs.length by omega, ?_⟩
      simp only [measure_state]
      omega
    · exact ⟨trivial, by simp only [measure_state]; omega⟩
  | done ec indexes => simp [is_done] at hnd
  | ub => exact hok.elim

theorem is_done_iff (s : tx_state) :
    is_done s = true ↔ ∃ ec l, s = tx_state.done ec l := by
  cases s <;> simp [is_done]

theorem state_call_of_not_done (s : tx_state) (h : is_done s = false) :
    state_call s = [] := by
  cases s <;> simp_all [is_done, state_call]

/-- The reply-driven handler invocations number at most one from any
reachable state, and exactly one from a reachable non-terminal state given
at least measure_state many replies. -/
theorem tx_steps_calls_spec (tv : tx_ctx) :
    ∀ (rs : List oracle_reply) (s : tx_state), state_ok tv s →
      (tx_steps_calls tv s rs).length ≤ 1 ∧
      (is_done s = false → measure_state tv s ≤ rs.length →
        (tx_steps_calls tv s rs).length = 1) := by
  intro rs
  induction rs with
  | nil =>
    intro s hok
    refine ⟨by simp [tx_steps_calls], ?_⟩
    intro hnd hm
    have := measure_state_pos tv s hok hnd
    simp at hm
    omega
  | cons r rs ih =>
    intro s hok
    by_cases hd : is_done s = true
    · obtain ⟨ec, l, rfl⟩ := (is_done_iff s).mp hd
      rw [tx_steps_calls_done]
      exact ⟨by simp, fun hnd _ => absurd hnd (by simp [is_done])⟩
    · have hnd : is_done s = false := by simpa using hd
      have hp := tx_step_progress tv s r hok hnd
      simp only [tx_steps_calls]
      rw [if_neg (by simp [hnd])]
      by_cases hd2 : is_done (tx_step tv s r) = true
      · obtain ⟨ec, l, he⟩ := (is_done_iff _).mp hd2
        rw [he, tx_steps_calls_done]
        exact ⟨by simp [state_call], fun _ _ => by simp [state_call]⟩
      · have h0 : state_call (tx_step tv s r) =
            [] := state_call_of_not_done _ (by simpa using hd2)
        rw [h0, List.nil_append]
        have hrec := ih (tx_step tv s r) hp.1
        refine ⟨hrec.1, ?_⟩
        intro _ hm
        simp only [List.length_cons] at hm
        exact hrec.2 (by simpa using hd2) (by omega)

theorem check_transaction_ok_inputs (sc : script_ctx) (tx : transaction)
    (h : check_transaction sc tx = error_code.ok) : tx.inputs ≠ [] := by
  intro hnil
  simp [check_transaction, hnil] at h

theorem basic_checks_ok_check (tv : tx_ctx)
    (h : basic_checks tv = error_code.ok) :
    check_transaction tv.sc tv.tx = error_code.ok := by
  unfold basic_checks at h
  split_ifs at h with h1
  · exact h
  · exact not_ne_iff.mp h1

/-- Claim C8: a started validator invokes its handler exactly once: at
most one invocation over any reply sequence, and exactly one as soon as
the run receives 2 + 3 * |inputs| replies; every path (immediate basic
failure, any oracle error, any per-input failure, success) ends in a
single terminal invocation and none fires twice. -/
theorem claim_C8_single_handler (tv : tx_ctx) (rs : List oracle_reply) :
    (tx_run_calls tv rs).length ≤ 1 ∧
      (2 + 3 * tv.tx.inputs.length ≤ rs.length →
        (tx_run_calls tv rs).length = 1) := by
  unfold tx_run_calls tx_start
  split_ifs with h
  · rw [tx_steps_calls_done]
    exact ⟨by simp [state_call], fun _ => by simp [state_call]⟩
  · have hck := basic_checks_ok_check tv (not_ne_iff.mp h)
    have hok : state_ok tv tx_state.dup_check :=
      check_transaction_ok_inputs tv.sc tv.tx hck
    have hm := tx_steps_calls_spec tv rs tx_state.dup_check hok
    refine ⟨by simpa [state_call] using hm.1, ?_⟩
    intro hlen
    have h1 := hm.2 rfl (by simpa [measure_state] using hlen)
    simpa [state_call] using h1

/-- Witness for claim C8: the concrete context tx_ctx_simple (one input)
needs five replies, and on a successful five-reply run the handler fires
exactly once. -/
theorem claim_C8_witness :
    2 + 3 * tx_ctx_simple.tx.inputs.length ≤ 5 ∧
      (tx_run_calls tx_ctx_simple
        [⟨error_code.not_found, tx_simple, 0⟩,
         ⟨error_code.ok, tx_simple, 1000⟩,
         ⟨error_code.ok, tx_simple, 5⟩,
         ⟨error_code.ok, tx_simple, 5⟩,
         ⟨error_code.unspent_output, tx_simple, 0⟩]).length = 1 :=
  ⟨by decide, (claim_C8_single_handler tx_ctx_simple _).2 (by decide)⟩

end LibBitcoin
